import Mathlib

/-!
Verification of the per-command supervision core of `lars-script-runner`
(package `main`, file `main.go`, plus the Unix termination helpers in
`platform_unix.go`).

Shallow embedding conventions:
* Go `time.Duration` and `time.Time` values are modelled as `Nat`
  nanoseconds (all durations reaching this code are validated non-negative
  by `validateConfig`).
* Go strings are modelled as `List Char` (sequences of runes); the rune
  predicate `unicode.IsSpace` is modelled on its ASCII space class, which
  is the part exercised by command lines.
* The backoff computation in `handleProcessFailure` uses Go `float64`
  (`math.Pow(2.0, n)` times `float64(restartDelay)` converted back to
  `Duration`).  For the parameters fixed by the specification
  (multiplier 2, base delay 1s) that computation is exact integer
  arithmetic as long as the uncapped product stays inside `int64`
  (consecutive-failure counts up to 34); the embedding `handleProcessFailure`
  below therefore uses exact `Nat` arithmetic, and theorems about large
  failure counts carry the corresponding bound.
* The worker loop `Start` together with the blocking `startProcess` is
  modelled as an event-driven small-step machine (`step`): the events are
  the ticker firing, context cancellation, the result of `cmd.Start`, and
  the result of `cmd.Wait`.  Within one worker these happen strictly
  sequentially in the Go code, since `startProcess` blocks the loop
  goroutine until the child exits.
-/

namespace LarsScriptRunner

/-- `DefaultRestartInterval = time.Second` in nanoseconds. -/
def nsPerSecond : Nat := 1000000000

/-- `MaxBackoffDuration = 5 * time.Minute` in nanoseconds. -/
def MaxBackoffDuration : Nat := 300 * nsPerSecond

/-- `BackoffMultiplier = 2.0` (exact as an integer for this program's use). -/
def BackoffMultiplier : Nat := 2

/-- `MaxCommandLength = 1000`. -/
def MaxCommandLength : Nat := 1000

/-- The subset of `Config` consumed by the supervision worker
(`main.go` struct `Config`). -/
structure Config where
  gracePeriod : Nat
  restartDelay : Nat
  maxRetries : Nat
  backoffEnabled : Bool
deriving DecidableEq, Repr

/-- `ProcessStatus` string constants from `main.go`. -/
inductive ProcessStatus where
  | stopped
  | running
  | failed
  | starting
deriving DecidableEq, Repr

/-- `ProcessStats` from `main.go` (times in ns; `pid = 0` models the zero
value used when no process is attached; `lastOutput` is never written by
the core and is omitted). -/
structure ProcessStats where
  startTime : Nat
  restartCount : Nat
  failureCount : Nat
  lastFailure : Option Nat
  uptime : Nat
  status : ProcessStatus
  pid : Nat
deriving DecidableEq, Repr

/-- `ProcessManager` from `main.go`.  The mutexes guard concurrent reads
and are not part of the sequential state; the dashboard pointer and id are
irrelevant to the claims and omitted.  `currentProc` holds the child's pid
when a live `*os.Process` is attached. -/
structure ProcessManager where
  cmd : List Char
  command : List Char
  args : List (List Char)
  currentProc : Option Nat
  shutdownGrace : Nat
  failureCount : Nat
  lastFailure : Nat
  backoffDuration : Nat
  config : Config
  stats : ProcessStats
deriving DecidableEq, Repr

/-- ASCII fragment of Go `unicode.IsSpace`, the rune class used by
`strings.Fields` and `strings.TrimSpace`. -/
def isSpaceRune (c : Char) : Bool :=
  c = ' ' ∨ c = '\t' ∨ c = '\n' ∨ c = Char.ofNat 11 ∨ c = Char.ofNat 12 ∨ c = '\r'

/-- Go `strings.Fields`: splits around maximal runs of white space,
returning the (all non-empty) words.  Formulated with one-character
lookahead so the recursion is structural: a non-space character either
starts a new word (at the end of input or before a space) or is prepended
to the word started by the next character. -/
def stringsFields : List Char → List (List Char)
  | [] => []
  | c :: cs =>
    if isSpaceRune c then stringsFields cs
    else
      match cs with
      | [] => [[c]]
      | d :: _ =>
        if isSpaceRune d then [c] :: stringsFields cs
        else
          match stringsFields cs with
          | [] => [[c]]
          | w :: ws => (c :: w) :: ws

/-- Go `strings.TrimSpace` restricted to the ASCII space class. -/
def trimSpace (cs : List Char) : List Char :=
  (cs.dropWhile isSpaceRune).rdropWhile isSpaceRune

/-- `NewProcessManager` (`main.go:96`): splits the command line into
executable and arguments, rejecting a command with no fields; `t0` models
the `time.Now()` taken for the initial `stats.StartTime`. -/
def NewProcessManager (cmd : List Char) (config : Config) (t0 : Nat) :
    Except (List Char) ProcessManager :=
  match stringsFields cmd with
  | [] => Except.error cmd
  | c :: rest =>
    Except.ok
      { cmd := cmd
        command := c
        args := rest
        currentProc := none
        shutdownGrace := config.gracePeriod
        failureCount := 0
        lastFailure := 0
        backoffDuration := config.restartDelay
        config := config
        stats :=
          { startTime := t0
            restartCount := 0
            failureCount := 0
            lastFailure := none
            uptime := 0
            status := ProcessStatus.stopped
            pid := 0 } }

/-- `UpdateStats` (`main.go:120`); `now` models `time.Now()` (both calls
inside the Go function happen at indistinguishable instants for this
model). -/
def UpdateStats (pm : ProcessManager) (status : ProcessStatus) (pid : Nat)
    (now : Nat) : ProcessManager :=
  let s0 := pm.stats
  let s1 : ProcessStats := { s0 with status := status, pid := pid }
  let s2 := if status = ProcessStatus.running then { s1 with startTime := now } else s1
  let s3 := if status = ProcessStatus.running then { s2 with uptime := now - s2.startTime } else s2
  let s4 :=
    if status = ProcessStatus.failed then
      { s3 with failureCount := s3.failureCount + 1, lastFailure := some now }
    else s3
  let s5 :=
    if status = ProcessStatus.starting then { s4 with restartCount := s4.restartCount + 1 }
    else s4
  { pm with stats := s5 }

/-- `GetStats` (`main.go:149`): returns a full value copy of the stats,
recomputing `Uptime` from `StartTime` when the status is `running`. -/
def GetStats (pm : ProcessManager) (now : Nat) : ProcessStats :=
  if pm.stats.status = ProcessStatus.running then
    { pm.stats with uptime := now - pm.stats.startTime }
  else pm.stats

/-- `handleProcessFailure` (`main.go:196`): increments the consecutive
launch-failure count and, when backoff is enabled, recomputes
`backoffDuration = min(MaxBackoffDuration, restartDelay * 2^(failureCount-1))`
(exact arithmetic; see the file header for the float64 caveat). -/
def handleProcessFailure (pm : ProcessManager) (now : Nat) : ProcessManager :=
  let pm1 := { pm with failureCount := pm.failureCount + 1, lastFailure := now }
  if pm1.config.backoffEnabled then
    let newBackoff := pm1.config.restartDelay * BackoffMultiplier ^ (pm1.failureCount - 1)
    let capped := if newBackoff > MaxBackoffDuration then MaxBackoffDuration else newBackoff
    { pm1 with backoffDuration := capped }
  else pm1

/-- `resetFailureState` (`main.go:222`): on a successful start, clears the
launch-failure count and restores the base restart delay (a no-op when the
count is already zero). -/
def resetFailureState (pm : ProcessManager) : ProcessManager :=
  if pm.failureCount > 0 then
    { pm with failureCount := 0, backoffDuration := pm.config.restartDelay }
  else pm

/-- `k` consecutive invocations of `handleProcessFailure` (the state after
the `k`-th consecutive launch failure). -/
def iterFail : Nat → ProcessManager → Nat → ProcessManager
  | 0, pm, _ => pm
  | n + 1, pm, now => handleProcessFailure (iterFail n pm now) now

/-- Outcome of one `startProcess` call as observed by the worker loop:
either `cmd.Start` errors (the process never ran), or the process started
with some pid and `cmd.Wait` later returned a clean (`true`) or non-clean
(`false`) result. -/
inductive LaunchResult where
  | launchError
  | exited (pid : Nat) (clean : Bool)
deriving DecidableEq, Repr

/-- Big-step model of `startProcess` (`main.go:231`): runs one child to
completion and returns the updated manager together with `some` error
exactly when `cmd.Start` failed.  `now` models the wall clock during the
call (start and exit instants are not distinguished by any claim). -/
def startProcess (pm : ProcessManager) (r : LaunchResult) (now : Nat) :
    ProcessManager × Option (List Char) :=
  match r with
  | LaunchResult.launchError => (pm, some ['s', 't', 'a', 'r', 't'])
  | LaunchResult.exited pid clean =>
    let pm1 := { pm with currentProc := some pid }
    let pm2 := UpdateStats pm1 ProcessStatus.running pid now
    let pm3 := { pm2 with currentProc := none }
    let pm4 :=
      if clean then UpdateStats pm3 ProcessStatus.stopped 0 now
      else UpdateStats pm3 ProcessStatus.failed 0 now
    (pm4, none)

/-- Control point of the worker loop `Start` (`main.go:162`) together with
the blocking interior of `startProcess`. -/
inductive Phase where
  | idle
  | launching
  | running (pid : Nat)
  | done
deriving DecidableEq, Repr

/-- Events the loop can observe: the restart ticker firing, context
cancellation while selecting, and the results of `cmd.Start` and
`cmd.Wait`. -/
inductive Event where
  | tick
  | shutdown
  | launchFail
  | launchOk (pid : Nat)
  | exitClean
  | exitError
deriving DecidableEq, Repr

/-- One worker's complete loop state: the manager record, the control
phase, and the interval the ticker was last reset to. -/
structure WorkerState where
  pm : ProcessManager
  phase : Phase
  tickerInterval : Nat
deriving DecidableEq, Repr

/-- State at the top of `Start`: the ticker is created with the manager's
current `backoffDuration` and the loop enters its select. -/
def initState (pm : ProcessManager) : WorkerState :=
  { pm := pm, phase := Phase.idle, tickerInterval := pm.backoffDuration }

/-- Small-step transition of the worker loop (`Start`, `main.go:162`,
inlining `startProcess`).  `none` means the event cannot occur in the
phase (within one worker the loop is strictly sequential, so e.g. no tick
is consumed while `startProcess` blocks in `cmd.Wait`). -/
def step (ws : WorkerState) (e : Event) (now : Nat) : Option WorkerState :=
  match ws.phase, e with
  | Phase.idle, Event.shutdown =>
    some { ws with phase := Phase.done }
  | Phase.idle, Event.tick =>
    if ws.pm.config.maxRetries > 0 ∧ ws.pm.failureCount ≥ ws.pm.config.maxRetries then
      some { ws with phase := Phase.done }
    else
      some { ws with phase := Phase.launching }
  | Phase.launching, Event.launchFail =>
    let pm1 := handleProcessFailure ws.pm now
    some { pm := pm1, phase := Phase.idle, tickerInterval := pm1.backoffDuration }
  | Phase.launching, Event.launchOk pid =>
    let pm1 := { ws.pm with currentProc := some pid }
    let pm2 := UpdateStats pm1 ProcessStatus.running pid now
    some { ws with pm := pm2, phase := Phase.running pid }
  | Phase.running _, Event.exitClean =>
    let pm1 := { ws.pm with currentProc := none }
    let pm2 := UpdateStats pm1 ProcessStatus.stopped 0 now
    let pm3 := resetFailureState pm2
    some { pm := pm3, phase := Phase.idle, tickerInterval := pm3.config.restartDelay }
  | Phase.running _, Event.exitError =>
    let pm1 := { ws.pm with currentProc := none }
    let pm2 := UpdateStats pm1 ProcessStatus.failed 0 now
    let pm3 := resetFailureState pm2
    some { pm := pm3, phase := Phase.idle, tickerInterval := pm3.config.restartDelay }
  | _, _ => none

/-- One retry cycle ending in a launch failure: the ticker fires and
`cmd.Start` errors. -/
def failCycle (ws : WorkerState) (now : Nat) : Option WorkerState :=
  (step ws Event.tick now).bind (fun w => step w Event.launchFail now)

/-- `n` consecutive launch-failure cycles. -/
def failCycles : Nat → WorkerState → Nat → Option WorkerState
  | 0, ws, _ => some ws
  | n + 1, ws, now => (failCycle ws now).bind (fun w => failCycles n w now)

/-- One cycle of a command that always launches and always crashes: tick,
successful `cmd.Start`, then a non-clean exit. -/
def crashCycle (ws : WorkerState) (pid : Nat) (now : Nat) : Option WorkerState :=
  (step ws Event.tick now).bind fun w1 =>
    (step w1 (Event.launchOk pid) now).bind fun w2 =>
      step w2 Event.exitError now

/-- `n` consecutive launch-then-crash cycles. -/
def crashCycles : Nat → WorkerState → Nat → Nat → Option WorkerState
  | 0, ws, _, _ => some ws
  | n + 1, ws, pid, now => (crashCycle ws pid now).bind (fun w => crashCycles n w pid now)

/-- Reflexive-transitive closure of `step` with arbitrary events and
times. -/
inductive Reachable : WorkerState → WorkerState → Prop
  | refl (ws : WorkerState) : Reachable ws ws
  | tail {ws0 ws1 ws2 : WorkerState} (h : Reachable ws0 ws1) (e : Event) (now : Nat)
      (hstep : step ws1 e now = some ws2) : Reachable ws0 ws2

/-- `ws` is the loop state of a worker freshly constructed by
`NewProcessManager` for command `cmd`. -/
def ValidInit (cmd : List Char) (cfg : Config) (t0 : Nat) (ws : WorkerState) : Prop :=
  ∃ pm, NewProcessManager cmd cfg t0 = Except.ok pm ∧ ws = initState pm

/-- `runtime.GOOS` as branched on by `sendTerminationSignal`. -/
inductive GoOS where
  | windows
  | unixLike
deriving DecidableEq, Repr

/-- A signal delivery performed by the termination code: `signalPid` is
`proc.Signal(sig)`, `signalGroup` is `syscall.Kill(-pgid, sig)`, and
`forceKill` is the `forceKillProcess` path. -/
inductive SigAction where
  | signalPid (pid : Nat)
  | signalGroup (pgid : Nat)
  | forceKill (pid : Nat)
deriving DecidableEq, Repr

/-- `sendTerminationSignal` (`main.go:354`) — the graceful-stop request
actually issued by `terminateProcess`.  Returns the SIGTERM-phase actions
performed and whether an error is returned.  On Unix-like systems the code
is `proc.Signal(syscall.SIGTERM)`: a single-process signal, with no
process-group lookup.  `isPowershell` models the case-insensitive
`powershell`/`pwsh` substring test on the command text; `running` models
`isProcessRunning`; `sigFails` models the OS rejecting the signal. -/
def sendTerminationSignal (os : GoOS) (isPowershell : Bool) (running : Bool)
    (pid : Nat) (sigFails : Bool) : List SigAction × Bool :=
  match os with
  | GoOS.windows =>
    if ¬ running then ([], false)
    else if isPowershell then ([SigAction.forceKill pid], true)
    else ([], false)
  | GoOS.unixLike => ([SigAction.signalPid pid], sigFails)

/-- `sendPlatformTerminationSignal` (`platform_unix.go:31`) — the
process-group graceful stop with single-process fallback.  This function
exists in the repository but has no caller.  `pgidResult` models
`syscall.Getpgid(proc.Pid)`; the two booleans model failures of the group
and single-process signal deliveries. -/
def sendPlatformTerminationSignal (pgidResult : Option Nat) (pid : Nat)
    (groupSigFails : Bool) (pidSigFails : Bool) : List SigAction × Bool :=
  match pgidResult with
  | some pgid =>
    if groupSigFails then
      ([SigAction.signalGroup pgid, SigAction.signalPid pid], pidSigFails)
    else ([SigAction.signalGroup pgid], false)
  | none => ([SigAction.signalPid pid], pidSigFails)

/-- The graceful-stop request issued during `terminateProcess`
(`main.go:303`): it calls `pm.sendTerminationSignal(proc)` — not the
platform helper above. -/
def terminateGracefulRequest (os : GoOS) (isPowershell : Bool) (running : Bool)
    (pid : Nat) (sigFails : Bool) : List SigAction × Bool :=
  sendTerminationSignal os isPowershell running pid sigFails

/-- Loop invariant tying the manager record to the control phase:
`currentProc` is populated exactly while the loop sits between a
successful `cmd.Start` and the return of `cmd.Wait` for that pid; the
consecutive-failure counter and `backoffDuration` are coherent (a zero
counter means the base delay is in force); the configuration record never
changes; and the stats never record a `starting` transition, so
`restartCount` stays zero. -/
def Inv (cfg : Config) (ws : WorkerState) : Prop :=
  (match ws.phase with
   | Phase.running pid => ws.pm.currentProc = some pid
   | _ => ws.pm.currentProc = none) ∧
  (ws.pm.failureCount = 0 → ws.pm.backoffDuration = ws.pm.config.restartDelay) ∧
  ws.pm.config = cfg ∧
  ws.pm.stats.restartCount = 0

/-- A concrete configuration: the flag defaults of `main` (restart delay
1s, grace 5s, unlimited retries, backoff on). -/
def cfgEx : Config :=
  { gracePeriod := 5 * nsPerSecond
    restartDelay := nsPerSecond
    maxRetries := 0
    backoffEnabled := true }

/-- `cfgEx` with `max-retries=3`, as in the spec's ceiling scenario. -/
def cfgRetries : Config := { cfgEx with maxRetries := 3 }

/-- The manager `NewProcessManager` builds for the command `"ls"` under
`cfgEx` at time 0. -/
def pmEx : ProcessManager :=
  { cmd := ['l', 's']
    command := ['l', 's']
    args := []
    currentProc := none
    shutdownGrace := cfgEx.gracePeriod
    failureCount := 0
    lastFailure := 0
    backoffDuration := cfgEx.restartDelay
    config := cfgEx
    stats :=
      { startTime := 0
        restartCount := 0
        failureCount := 0
        lastFailure := none
        uptime := 0
        status := ProcessStatus.stopped
        pid := 0 } }

/-- Same manager under `cfgRetries`. -/
def pmRetries : ProcessManager := { pmEx with config := cfgRetries, shutdownGrace := cfgRetries.gracePeriod }

/-- The freshly started worker loop for `pmEx`. -/
def wsIdleEx : WorkerState := initState pmEx

/-- `wsIdleEx` after its first ticker tick (launch attempt in flight). -/
def wsLaunchingEx : WorkerState :=
  { pm := pmEx, phase := Phase.launching, tickerInterval := pmEx.backoffDuration }

/-- `wsLaunchingEx` after `cmd.Start` succeeded with pid 7. -/
def wsRunningEx : WorkerState :=
  { pm := UpdateStats { pmEx with currentProc := some 7 } ProcessStatus.running 7 0
    phase := Phase.running 7
    tickerInterval := pmEx.backoffDuration }

/-- `wsLaunchingEx` after a failed `cmd.Start` (one consecutive failure
recorded, ticker reset to the new backoff). -/
def wsFailedEx : WorkerState :=
  { pm := handleProcessFailure pmEx 0
    phase := Phase.idle
    tickerInterval := (handleProcessFailure pmEx 0).backoffDuration }

/-- `wsRunningEx` after pid 7 exits non-cleanly at time 1. -/
def wsAfterCrashEx : WorkerState :=
  { pm := resetFailureState (UpdateStats { wsRunningEx.pm with currentProc := none }
      ProcessStatus.failed 0 1)
    phase := Phase.idle
    tickerInterval := (resetFailureState (UpdateStats { wsRunningEx.pm with currentProc := none }
      ProcessStatus.failed 0 1)).config.restartDelay }

theorem UpdateStats_currentProc (pm : ProcessManager) (s : ProcessStatus) (pid now : Nat) :
    (UpdateStats pm s pid now).currentProc = pm.currentProc := by
  simp [UpdateStats]

theorem UpdateStats_failureCount (pm : ProcessManager) (s : ProcessStatus) (pid now : Nat) :
    (UpdateStats pm s pid now).failureCount = pm.failureCount := by
  simp [UpdateStats]

theorem UpdateStats_backoffDuration (pm : ProcessManager) (s : ProcessStatus) (pid now : Nat) :
    (UpdateStats pm s pid now).backoffDuration = pm.backoffDuration := by
  simp [UpdateStats]

theorem UpdateStats_config (pm : ProcessManager) (s : ProcessStatus) (pid now : Nat) :
    (UpdateStats pm s pid now).config = pm.config := by
  simp [UpdateStats]

theorem UpdateStats_restartCount (pm : ProcessManager) (s : ProcessStatus) (pid now : Nat) :
    (UpdateStats pm s pid now).stats.restartCount =
      pm.stats.restartCount + (if s = ProcessStatus.starting then 1 else 0) := by
  cases s <;> simp [UpdateStats]

theorem UpdateStats_statsFailureCount (pm : ProcessManager) (s : ProcessStatus) (pid now : Nat) :
    (UpdateStats pm s pid now).stats.failureCount =
      pm.stats.failureCount + (if s = ProcessStatus.failed then 1 else 0) := by
  cases s <;> simp [UpdateStats]

theorem UpdateStats_status (pm : ProcessManager) (s : ProcessStatus) (pid now : Nat) :
    (UpdateStats pm s pid now).stats.status = s := by
  cases s <;> simp [UpdateStats]

theorem handleProcessFailure_failureCount (pm : ProcessManager) (now : Nat) :
    (handleProcessFailure pm now).failureCount = pm.failureCount + 1 := by
  simp only [handleProcessFailure]
  split <;> simp

theorem handleProcessFailure_currentProc (pm : ProcessManager) (now : Nat) :
    (handleProcessFailure pm now).currentProc = pm.currentProc := by
  simp only [handleProcessFailure]
  split <;> simp

theorem handleProcessFailure_config (pm : ProcessManager) (now : Nat) :
    (handleProcessFailure pm now).config = pm.config := by
  simp only [handleProcessFailure]
  split <;> simp

theorem handleProcessFailure_stats (pm : ProcessManager) (now : Nat) :
    (handleProcessFailure pm now).stats = pm.stats := by
  simp only [handleProcessFailure]
  split <;> simp

theorem resetFailureState_failureCount (pm : ProcessManager) :
    (resetFailureState pm).failureCount = 0 := by
  simp only [resetFailureState]
  split
  · simp
  · omega

theorem resetFailureState_backoffDuration (pm : ProcessManager)
    (h : pm.failureCount = 0 → pm.backoffDuration = pm.config.restartDelay) :
    (resetFailureState pm).backoffDuration = (resetFailureState pm).config.restartDelay := by
  simp only [resetFailureState]
  split
  · simp
  · next hfc => exact h (by omega)

theorem resetFailureState_currentProc (pm : ProcessManager) :
    (resetFailureState pm).currentProc = pm.currentProc := by
  simp only [resetFailureState]
  split <;> simp

theorem resetFailureState_config (pm : ProcessManager) :
    (resetFailureState pm).config = pm.config := by
  simp only [resetFailureState]
  split <;> simp

theorem resetFailureState_stats (pm : ProcessManager) :
    (resetFailureState pm).stats = pm.stats := by
  simp only [resetFailureState]
  split <;> simp

theorem inv_init (cmd : List Char) (cfg : Config) (t0 : Nat) (ws : WorkerState)
    (h : ValidInit cmd cfg t0 ws) : Inv cfg ws := by
  obtain ⟨pm, hok, rfl⟩ := h
  unfold NewProcessManager at hok
  split at hok
  · exact absurd hok (by simp)
  · cases hok
    simp [Inv, initState]

theorem inv_step (cfg : Config) {ws ws' : WorkerState} (e : Event) (now : Nat)
    (hInv : Inv cfg ws) (h : step ws e now = some ws') : Inv cfg ws' := by
  obtain ⟨hproc, hback, hcfg, hrc⟩ := hInv
  cases hph : ws.phase <;> rw [hph] at hproc <;> cases e <;>
    simp only [step, hph] at h <;> try exact Option.noConfusion h
  case idle.tick =>
    split at h <;> cases h <;> exact ⟨hproc, hback, hcfg, hrc⟩
  case idle.shutdown =>
    cases h
    exact ⟨hproc, hback, hcfg, hrc⟩
  case launching.launchFail =>
    cases h
    have h1 : (handleProcessFailure ws.pm now).currentProc = none := by
      rw [handleProcessFailure_currentProc]
      exact hproc
    have h2 : (handleProcessFailure ws.pm now).failureCount = 0 →
        (handleProcessFailure ws.pm now).backoffDuration =
          (handleProcessFailure ws.pm now).config.restartDelay := by
      intro h0
      rw [handleProcessFailure_failureCount] at h0
      omega
    have h3 : (handleProcessFailure ws.pm now).config = cfg := by
      rw [handleProcessFailure_config]
      exact hcfg
    have h4 : (handleProcessFailure ws.pm now).stats.restartCount = 0 := by
      rw [handleProcessFailure_stats]
      exact hrc
    exact ⟨h1, h2, h3, h4⟩
  case launching.launchOk pid =>
    cases h
    have h1 : (UpdateStats { ws.pm with currentProc := some pid }
        ProcessStatus.running pid now).currentProc = some pid := by
      rw [UpdateStats_currentProc]
    have h2 : (UpdateStats { ws.pm with currentProc := some pid }
          ProcessStatus.running pid now).failureCount = 0 →
        (UpdateStats { ws.pm with currentProc := some pid }
          ProcessStatus.running pid now).backoffDuration =
        (UpdateStats { ws.pm with currentProc := some pid }
          ProcessStatus.running pid now).config.restartDelay := by
      rw [UpdateStats_failureCount, UpdateStats_backoffDuration, UpdateStats_config]
      exact hback
    have h3 : (UpdateStats { ws.pm with currentProc := some pid }
        ProcessStatus.running pid now).config = cfg := by
      rw [UpdateStats_config]
      exact hcfg
    have h4 : (UpdateStats { ws.pm with currentProc := some pid }
        ProcessStatus.running pid now).stats.restartCount = 0 := by
      rw [UpdateStats_restartCount]
      simp [hrc]
    exact ⟨h1, h2, h3, h4⟩
  case running.exitClean pid =>
    cases h
    have h2 := resetFailureState_backoffDuration
      (UpdateStats { ws.pm with currentProc := none } ProcessStatus.stopped 0 now)
      (by
        rw [UpdateStats_failureCount, UpdateStats_backoffDuration, UpdateStats_config]
        exact hback)
    have h1 : (resetFailureState (UpdateStats { ws.pm with currentProc := none }
        ProcessStatus.stopped 0 now)).currentProc = none := by
      rw [resetFailureState_currentProc, UpdateStats_currentProc]
    have h3 : (resetFailureState (UpdateStats { ws.pm with currentProc := none }
        ProcessStatus.stopped 0 now)).config = cfg := by
      rw [resetFailureState_config, UpdateStats_config]
      exact hcfg
    have h4 : (resetFailureState (UpdateStats { ws.pm with currentProc := none }
        ProcessStatus.stopped 0 now)).stats.restartCount = 0 := by
      rw [resetFailureState_stats, UpdateStats_restartCount]
      simp [hrc]
    exact ⟨h1, fun _ => h2, h3, h4⟩
  case running.exitError pid =>
    cases h
    have h2 := resetFailureState_backoffDuration
      (UpdateStats { ws.pm with currentProc := none } ProcessStatus.failed 0 now)
      (by
        rw [UpdateStats_failureCount, UpdateStats_backoffDuration, UpdateStats_config]
        exact hback)
    have h1 : (resetFailureState (UpdateStats { ws.pm with currentProc := none }
        ProcessStatus.failed 0 now)).currentProc = none := by
      rw [resetFailureState_currentProc, UpdateStats_currentProc]
    have h3 : (resetFailureState (UpdateStats { ws.pm with currentProc := none }
        ProcessStatus.failed 0 now)).config = cfg := by
      rw [resetFailureState_config, UpdateStats_config]
      exact hcfg
    have h4 : (resetFailureState (UpdateStats { ws.pm with currentProc := none }
        ProcessStatus.failed 0 now)).stats.restartCount = 0 := by
      rw [resetFailureState_stats, UpdateStats_restartCount]
      simp [hrc]
    exact ⟨h1, fun _ => h2, h3, h4⟩

theorem inv_reachable (cfg : Config) {ws0 ws : WorkerState} (h : Reachable ws0 ws)
    (hInv : Inv cfg ws0) : Inv cfg ws := by
  induction h with
  | refl => exact hInv
  | tail _ e now hstep ih => exact inv_step cfg e now ih hstep

theorem stringsFields_space (c : Char) (cs : List Char) (hc : isSpaceRune c = true) :
    stringsFields (c :: cs) = stringsFields cs := by
  cases cs <;> simp [stringsFields, hc]

theorem stringsFields_single (c : Char) (hc : isSpaceRune c = false) :
    stringsFields [c] = [[c]] := by
  simp [stringsFields, hc]

theorem stringsFields_break (c d : Char) (cs' : List Char)
    (hc : isSpaceRune c = false) (hd : isSpaceRune d = true) :
    stringsFields (c :: d :: cs') = [c] :: stringsFields (d :: cs') := by
  simp [stringsFields, hc, hd]

theorem stringsFields_glue (c d : Char) (cs' : List Char)
    (hc : isSpaceRune c = false) (hd : isSpaceRune d = false) :
    stringsFields (c :: d :: cs') =
      match stringsFields (d :: cs') with
      | [] => [[c]]
      | w :: ws => (c :: w) :: ws := by
  simp [stringsFields, hc, hd]

theorem stringsFields_cons_ne_nil (c : Char) (cs : List Char) (hc : isSpaceRune c = false) :
    stringsFields (c :: cs) ≠ [] := by
  cases cs with
  | nil =>
    rw [stringsFields_single c hc]
    simp
  | cons d cs' =>
    cases hd : isSpaceRune d
    · rcases hsf : stringsFields (d :: cs') with _ | ⟨w, ws⟩
      · rw [stringsFields_glue c d cs' hc hd, hsf]
        simp
      · rw [stringsFields_glue c d cs' hc hd, hsf]
        simp
    · rw [stringsFields_break c d cs' hc hd]
      simp

theorem stringsFields_eq_nil_iff (cs : List Char) :
    stringsFields cs = [] ↔ ∀ c ∈ cs, isSpaceRune c = true := by
  induction cs with
  | nil => simp [stringsFields]
  | cons c cs ih =>
    cases hc : isSpaceRune c
    · constructor
      · intro h
        exact absurd h (stringsFields_cons_ne_nil c cs hc)
      · intro h
        have hmem := h c (List.mem_cons_self c cs)
        rw [hc] at hmem
        exact Bool.noConfusion hmem
    · rw [stringsFields_space c cs hc]
      simp only [List.mem_cons]
      constructor
      · intro h x hx
        rcases hx with rfl | hx
        · exact hc
        · exact (ih.1 h) x hx
      · intro h
        exact ih.2 (fun x hx => h x (Or.inr hx))

theorem stringsFields_words_ne_nil (cs : List Char) : ∀ w ∈ stringsFields cs, w ≠ [] := by
  induction cs with
  | nil => simp [stringsFields]
  | cons c cs ih =>
    cases hc : isSpaceRune c
    · cases cs with
      | nil =>
        rw [stringsFields_single c hc]
        simp
      | cons d cs' =>
        cases hd : isSpaceRune d
        · rcases hsf : stringsFields (d :: cs') with _ | ⟨w, ws⟩
          · rw [stringsFields_glue c d cs' hc hd, hsf]
            simp
          · rw [stringsFields_glue c d cs' hc hd, hsf]
            show ∀ w' ∈ (c :: w) :: ws, w' ≠ []
            intro w' hw'
            rcases List.mem_cons.1 hw' with rfl | hw'
            · simp
            · refine ih w' ?_
              rw [hsf]
              exact List.mem_cons_of_mem _ hw'
        · rw [stringsFields_break c d cs' hc hd]
          intro w' hw'
          rcases List.mem_cons.1 hw' with rfl | hw'
          · simp
          · exact ih w' hw'
    · rw [stringsFields_space c cs hc]
      exact ih

theorem all_dropWhile_iff (p : Char → Bool) (cs : List Char) :
    (∀ x ∈ cs.dropWhile p, p x = true) ↔ cs.dropWhile p = [] := by
  constructor
  · intro h
    cases hd : cs.dropWhile p with
    | nil => rfl
    | cons a l =>
      exfalso
      have hlen : 0 < (cs.dropWhile p).length := by
        rw [hd]
        simp
      have hnot := List.dropWhile_get_zero_not (p := p) cs hlen
      exact hnot (h _ (List.get_mem _ _ _))
  · intro h
    rw [h]
    intro x hx
    exact absurd hx (List.not_mem_nil x)

theorem trimSpace_eq_nil_iff (cs : List Char) :
    trimSpace cs = [] ↔ ∀ c ∈ cs, isSpaceRune c = true := by
  unfold trimSpace
  rw [List.rdropWhile_eq_nil_iff, all_dropWhile_iff, List.dropWhile_eq_nil_iff]

/-- C8: for every command string that is non-empty after white-space
trimming, `NewProcessManager` succeeds and sets `command` to the first
white-space-separated token (which is non-empty) and `args` to the
remaining tokens in order; for a command with no tokens it returns an
error instead of a manager. -/
theorem command_parsing (cmd : List Char) (cfg : Config) (t0 : Nat) :
    (trimSpace cmd ≠ [] →
      ∃ pm c cs, stringsFields cmd = c :: cs ∧
        NewProcessManager cmd cfg t0 = Except.ok pm ∧
        pm.command = c ∧ pm.args = cs ∧ pm.command ≠ []) ∧
    (trimSpace cmd = [] → NewProcessManager cmd cfg t0 = Except.error cmd) := by
  constructor
  · intro htrim
    have hf : stringsFields cmd ≠ [] := by
      intro h
      exact htrim ((trimSpace_eq_nil_iff cmd).2 ((stringsFields_eq_nil_iff cmd).1 h))
    cases hfe : stringsFields cmd with
    | nil => exact absurd hfe hf
    | cons c cs =>
      have hnpm : NewProcessManager cmd cfg t0 = Except.ok
          { cmd := cmd, command := c, args := cs, currentProc := none,
            shutdownGrace := cfg.gracePeriod, failureCount := 0, lastFailure := 0,
            backoffDuration := cfg.restartDelay, config := cfg,
            stats := { startTime := t0, restartCount := 0, failureCount := 0,
                       lastFailure := none, uptime := 0,
                       status := ProcessStatus.stopped, pid := 0 } } := by
        simp only [NewProcessManager, hfe]
      exact ⟨_, c, cs, rfl, hnpm, rfl, rfl,
        stringsFields_words_ne_nil cmd c (hfe ▸ List.mem_cons_self c cs)⟩
  · intro htrim
    have hf := (stringsFields_eq_nil_iff cmd).2 ((trimSpace_eq_nil_iff cmd).1 htrim)
    simp only [NewProcessManager, hf]

/-- Witness for C8 at the concrete commands `"ls -l"` and `" "`. -/
theorem command_parsing_witness :
    (∃ pm c cs, stringsFields ['l', 's', ' ', '-', 'l'] = c :: cs ∧
      NewProcessManager ['l', 's', ' ', '-', 'l'] cfgEx 0 = Except.ok pm ∧
      pm.command = c ∧ pm.args = cs ∧ pm.command ≠ []) ∧
    NewProcessManager [' '] cfgEx 0 = Except.error [' '] :=
  ⟨(command_parsing ['l', 's', ' ', '-', 'l'] cfgEx 0).1 (by decide),
   (command_parsing [' '] cfgEx 0).2 (by decide)⟩

theorem iterFail_config (n : Nat) (pm : ProcessManager) (now : Nat) :
    (iterFail n pm now).config = pm.config := by
  induction n with
  | zero => rfl
  | succ n ih => rw [iterFail, handleProcessFailure_config, ih]

theorem iterFail_failureCount (n : Nat) (pm : ProcessManager) (now : Nat) :
    (iterFail n pm now).failureCount = pm.failureCount + n := by
  induction n with
  | zero => rfl
  | succ n ih =>
    rw [iterFail, handleProcessFailure_failureCount, ih]
    omega

theorem handleProcessFailure_backoffFormula (pm : ProcessManager) (now : Nat)
    (hen : pm.config.backoffEnabled = true) :
    (handleProcessFailure pm now).backoffDuration =
      min MaxBackoffDuration (pm.config.restartDelay * BackoffMultiplier ^ pm.failureCount) := by
  simp only [handleProcessFailure, hen, if_true, Nat.add_sub_cancel]
  split <;> omega

/-- C1 (amended): with backoff enabled, base restart delay 1s and
multiplier 2, after the k-th consecutive launch failure the backoff
interval equals `min(300s, 1s * 2^(k-1))` — the exponent is `k-1`, not
`k`, because the code computes `restartDelay * 2^(failureCount-1)` after
incrementing the counter.  The bound `k ≤ 34` keeps the Go `float64`
computation exact (see the file header). -/
theorem backoff_growth (pm : ProcessManager) (now k : Nat)
    (hen : pm.config.backoffEnabled = true)
    (hrd : pm.config.restartDelay = nsPerSecond)
    (hfc : pm.failureCount = 0)
    (hk : 1 ≤ k) (hk34 : k ≤ 34) :
    (iterFail k pm now).backoffDuration =
      min (300 * nsPerSecond) (nsPerSecond * 2 ^ (k - 1)) := by
  obtain ⟨j, rfl⟩ : ∃ j, k = j + 1 := ⟨k - 1, by omega⟩
  rw [iterFail]
  rw [handleProcessFailure_backoffFormula _ _ (by rw [iterFail_config]; exact hen)]
  rw [iterFail_config, iterFail_failureCount, hrd, hfc]
  simp [MaxBackoffDuration, BackoffMultiplier]

/-- C1 counterexample to the claim as stated: after the 1st consecutive
failure the interval is 1s (the code's `2^(k-1)` with `k = 1`), not the
claimed `min(300s, 1s * 2^1) = 2s`. -/
theorem backoff_growth_claim_cex :
    ¬ ((iterFail 1 pmEx 0).backoffDuration =
        min (300 * nsPerSecond) (nsPerSecond * 2 ^ 1)) := by
  decide

/-- Witness for C1 at `k = 3`: the interval is `min(300s, 1s * 2^2) = 4s`. -/
theorem backoff_growth_witness :
    (iterFail 3 pmEx 0).backoffDuration =
      min (300 * nsPerSecond) (nsPerSecond * 2 ^ (3 - 1)) :=
  backoff_growth pmEx 0 3 rfl rfl rfl (by decide) (by decide)

/-- C2 (amended): `UpdateStats` increments `restartCount` exactly when
called with status `starting`; but the worker loop never calls it with
`starting` (launch attempts update stats only on launch success, exit, or
not at all on launch failure), so along every reachable loop state the
`restartCount` stays 0. -/
theorem restart_count_semantics :
    (∀ pm s pid now, (UpdateStats pm s pid now).stats.restartCount =
        pm.stats.restartCount + (if s = ProcessStatus.starting then 1 else 0)) ∧
    (∀ cmd cfg t0 ws0 ws, ValidInit cmd cfg t0 ws0 → Reachable ws0 ws →
        ws.pm.stats.restartCount = 0) := by
  refine ⟨UpdateStats_restartCount, ?_⟩
  intro cmd cfg t0 ws0 ws hinit hreach
  exact (inv_reachable cfg hreach (inv_init cmd cfg t0 ws0 hinit)).2.2.2

/-- C2 counterexample to the claim as stated: a scheduled launch attempt
that succeeds (tick, then `cmd.Start` ok) leaves `restartCount` at 0 — no
transition into `Starting` ever happens in the loop. -/
theorem restart_count_claim_cex :
    step wsIdleEx Event.tick 0 = some wsLaunchingEx ∧
    step wsLaunchingEx (Event.launchOk 7) 0 = some wsRunningEx ∧
    wsRunningEx.pm.stats.restartCount = 0 :=
  ⟨rfl, rfl, rfl⟩

/-- Witness for C2 (amended) at concrete inputs. -/
theorem restart_count_witness :
    (UpdateStats pmEx ProcessStatus.starting 7 5).stats.restartCount =
      pmEx.stats.restartCount + 1 ∧
    wsRunningEx.pm.stats.restartCount = 0 := by
  constructor
  · have h := restart_count_semantics.1 pmEx ProcessStatus.starting 7 5
    simpa using h
  · exact restart_count_semantics.2 ['l', 's'] cfgEx 0 wsIdleEx wsRunningEx
      ⟨pmEx, rfl, rfl⟩
      (Reachable.tail (Reachable.tail (Reachable.refl _) Event.tick 0 rfl)
        (Event.launchOk 7) 0 rfl)

/-- C3: per loop transition, the stats exit-failure counter
(`ProcessStats.failureCount`) increments exactly on a non-clean exit of a
launched process and never on a launch failure; the launch-failure counter
(`ProcessManager.failureCount`) increments exactly on a launch failure and
is never incremented (it is reset) on an exit. -/
theorem failure_counter_split :
    (∀ ws now ws', step ws Event.launchFail now = some ws' →
        ws'.pm.stats.failureCount = ws.pm.stats.failureCount ∧
        ws'.pm.failureCount = ws.pm.failureCount + 1) ∧
    (∀ ws pid now ws', step ws (Event.launchOk pid) now = some ws' →
        ws'.pm.stats.failureCount = ws.pm.stats.failureCount ∧
        ws'.pm.failureCount = ws.pm.failureCount) ∧
    (∀ ws now ws', step ws Event.exitError now = some ws' →
        ws'.pm.stats.failureCount = ws.pm.stats.failureCount + 1 ∧
        ws'.pm.failureCount = 0) ∧
    (∀ ws now ws', step ws Event.exitClean now = some ws' →
        ws'.pm.stats.failureCount = ws.pm.stats.failureCount ∧
        ws'.pm.failureCount = 0) ∧
    (∀ ws now ws', step ws Event.tick now = some ws' → ws'.pm = ws.pm) ∧
    (∀ ws now ws', step ws Event.shutdown now = some ws' → ws'.pm = ws.pm) := by
  refine ⟨?_, ?_, ?_, ?_, ?_, ?_⟩
  · intro ws now ws' h
    cases hph : ws.phase <;> simp only [step, hph] at h <;> try exact Option.noConfusion h
    cases h
    exact ⟨by rw [handleProcessFailure_stats], handleProcessFailure_failureCount ws.pm now⟩
  · intro ws pid now ws' h
    cases hph : ws.phase <;> simp only [step, hph] at h <;> try exact Option.noConfusion h
    cases h
    constructor
    · rw [UpdateStats_statsFailureCount]
      simp
    · rw [UpdateStats_failureCount]
  · intro ws now ws' h
    cases hph : ws.phase <;> simp only [step, hph] at h <;> try exact Option.noConfusion h
    cases h
    constructor
    · rw [resetFailureState_stats, UpdateStats_statsFailureCount]
      simp
    · exact resetFailureState_failureCount _
  · intro ws now ws' h
    cases hph : ws.phase <;> simp only [step, hph] at h <;> try exact Option.noConfusion h
    cases h
    constructor
    · rw [resetFailureState_stats, UpdateStats_statsFailureCount]
      simp
    · exact resetFailureState_failureCount _
  · intro ws now ws' h
    cases hph : ws.phase <;> simp only [step, hph] at h <;> try exact Option.noConfusion h
    split at h <;> cases h <;> rfl
  · intro ws now ws' h
    cases hph : ws.phase <;> simp only [step, hph] at h <;> try exact Option.noConfusion h
    cases h
    rfl

/-- Witness for C3 at a concrete launch failure and a concrete crash. -/
theorem failure_counter_split_witness :
    (wsFailedEx.pm.stats.failureCount = wsLaunchingEx.pm.stats.failureCount ∧
      wsFailedEx.pm.failureCount = wsLaunchingEx.pm.failureCount + 1) ∧
    (wsAfterCrashEx.pm.stats.failureCount = wsRunningEx.pm.stats.failureCount + 1 ∧
      wsAfterCrashEx.pm.failureCount = 0) :=
  ⟨failure_counter_split.1 wsLaunchingEx 0 wsFailedEx rfl,
   failure_counter_split.2.2.1 wsRunningEx 1 wsAfterCrashEx rfl⟩

theorem step_done (ws : WorkerState) (h : ws.phase = Phase.done) (e : Event) (now : Nat) :
    step ws e now = none := by
  cases e <;> simp [step, h]

theorem failCycle_spec (ws : WorkerState) (now : Nat)
    (hph : ws.phase = Phase.idle)
    (hok : ws.pm.config.maxRetries = 0 ∨ ws.pm.failureCount < ws.pm.config.maxRetries) :
    failCycle ws now = some
      { pm := handleProcessFailure ws.pm now, phase := Phase.idle,
        tickerInterval := (handleProcessFailure ws.pm now).backoffDuration } := by
  unfold failCycle
  have h1 : step ws Event.tick now = some { ws with phase := Phase.launching } := by
    simp only [step, hph]
    rcases hok with hok | hok
    · rw [if_neg (by omega)]
    · rw [if_neg (by omega)]
  rw [h1]
  rfl

theorem failCycles_spec (n : Nat) (ws : WorkerState) (now : Nat)
    (hph : ws.phase = Phase.idle)
    (hok : ws.pm.config.maxRetries = 0 ∨ ws.pm.failureCount + n ≤ ws.pm.config.maxRetries) :
    ∃ ws', failCycles n ws now = some ws' ∧ ws'.phase = Phase.idle ∧
      ws'.pm.failureCount = ws.pm.failureCount + n ∧
      ws'.pm.config = ws.pm.config := by
  induction n generalizing ws with
  | zero => exact ⟨ws, rfl, hph, rfl, rfl⟩
  | succ n ih =>
    have hstep := failCycle_spec ws now hph (by rcases hok with h | h; exact Or.inl h; exact Or.inr (by omega))
    obtain ⟨ws', hws', hph', hfc', hcfg'⟩ := ih
      { pm := handleProcessFailure ws.pm now, phase := Phase.idle,
        tickerInterval := (handleProcessFailure ws.pm now).backoffDuration }
      rfl
      (by
        rw [handleProcessFailure_config, handleProcessFailure_failureCount]
        rcases hok with h | h
        · exact Or.inl h
        · exact Or.inr (by omega))
    refine ⟨ws', ?_, hph', ?_, ?_⟩
    · rw [failCycles, hstep]
      exact hws'
    · rw [hfc', handleProcessFailure_failureCount]
      omega
    · rw [hcfg', handleProcessFailure_config]

/-- C4: with configured max-retries `m > 0`, after `m` consecutive launch
failures the next ticker tick makes the worker's loop return permanently
(no further launch attempt is ever scheduled; the `done` phase has no
successor states); with max-retries `= 0` the worker keeps scheduling
launch attempts after arbitrarily many consecutive launch failures.
Workers are modelled independently, so one worker reaching the ceiling
does not affect any sibling. -/
theorem max_retries_ceiling :
    (∀ ws now m, ws.phase = Phase.idle → ws.pm.config.maxRetries = m → 0 < m →
      ws.pm.failureCount = 0 →
      ∃ ws1 ws2, failCycles m ws now = some ws1 ∧ ws1.pm.failureCount = m ∧
        step ws1 Event.tick now = some ws2 ∧ ws2.phase = Phase.done ∧
        (∀ e t, step ws2 e t = none)) ∧
    (∀ ws now n, ws.phase = Phase.idle → ws.pm.config.maxRetries = 0 →
      ∃ ws', failCycles n ws now = some ws' ∧ ws'.phase = Phase.idle ∧
        (step ws' Event.tick now).map WorkerState.phase = some Phase.launching) := by
  constructor
  · intro ws now m hph hm hmpos hfc
    obtain ⟨ws1, h1, hph1, hfc1, hcfg1⟩ :=
      failCycles_spec m ws now hph (Or.inr (by omega))
    have hfc1' : ws1.pm.failureCount = m := by omega
    have h2 : step ws1 Event.tick now = some { ws1 with phase := Phase.done } := by
      simp only [step, hph1]
      rw [if_pos (by rw [hcfg1, hm, hfc1']; omega)]
    exact ⟨ws1, { ws1 with phase := Phase.done }, h1, hfc1', h2, rfl,
      fun e t => step_done _ rfl e t⟩
  · intro ws now n hph hm0
    obtain ⟨ws', h1, hph', _, hcfg'⟩ := failCycles_spec n ws now hph (Or.inl hm0)
    have h2 : step ws' Event.tick now = some { ws' with phase := Phase.launching } := by
      simp only [step, hph']
      rw [if_neg (by rw [hcfg', hm0]; omega)]
    refine ⟨ws', h1, hph', ?_⟩
    rw [h2]
    rfl

/-- Witness for C4: the ceiling path with max-retries 3 and the unlimited
path with 5 consecutive failures. -/
theorem max_retries_ceiling_witness :
    (∃ ws1 ws2, failCycles 3 (initState pmRetries) 0 = some ws1 ∧
      ws1.pm.failureCount = 3 ∧ step ws1 Event.tick 0 = some ws2 ∧
      ws2.phase = Phase.done ∧ (∀ e t, step ws2 e t = none)) ∧
    (∃ ws', failCycles 5 wsIdleEx 0 = some ws' ∧ ws'.phase = Phase.idle ∧
      (step ws' Event.tick 0).map WorkerState.phase = some Phase.launching) :=
  ⟨max_retries_ceiling.1 (initState pmRetries) 0 3 rfl rfl (by decide) rfl,
   max_retries_ceiling.2 wsIdleEx 0 5 rfl rfl⟩

/-- C5: whenever a launch attempt succeeds, by the time the loop schedules
the next launch attempt (i.e. on return of the blocking `startProcess`,
whatever the exit result) the launch-failure count is 0, the backoff
interval equals the configured restart delay, and the ticker has been
reset to that base interval — an exit failure (immediate crash included)
never grows backoff. -/
theorem launch_success_resets (cmd : List Char) (cfg : Config) (t0 : Nat)
    (ws0 ws ws1 ws2 : WorkerState) (pid now1 now2 : Nat) (e : Event)
    (hinit : ValidInit cmd cfg t0 ws0) (hreach : Reachable ws0 ws)
    (hlaunch : step ws (Event.launchOk pid) now1 = some ws1)
    (hexit : e = Event.exitClean ∨ e = Event.exitError)
    (hstep : step ws1 e now2 = some ws2) :
    ws2.pm.failureCount = 0 ∧
    ws2.pm.backoffDuration = ws2.pm.config.restartDelay ∧
    ws2.tickerInterval = ws2.pm.config.restartDelay ∧
    ws2.phase = Phase.idle := by
  have hInv2 : Inv cfg ws2 :=
    inv_step cfg e now2 (inv_step cfg (Event.launchOk pid) now1
      (inv_reachable cfg hreach (inv_init cmd cfg t0 ws0 hinit)) hlaunch) hstep
  rcases hexit with rfl | rfl
  · cases hph : ws1.phase <;> simp only [step, hph] at hstep <;>
      try exact Option.noConfusion hstep
    cases hstep
    exact ⟨resetFailureState_failureCount _,
      hInv2.2.1 (resetFailureState_failureCount _), rfl, rfl⟩
  · cases hph : ws1.phase <;> simp only [step, hph] at hstep <;>
      try exact Option.noConfusion hstep
    cases hstep
    exact ⟨resetFailureState_failureCount _,
      hInv2.2.1 (resetFailureState_failureCount _), rfl, rfl⟩

/-- Witness for C5: a concrete launch success at time 0 followed by an
immediate crash at time 1. -/
theorem launch_success_resets_witness :
    wsAfterCrashEx.pm.failureCount = 0 ∧
    wsAfterCrashEx.pm.backoffDuration = wsAfterCrashEx.pm.config.restartDelay ∧
    wsAfterCrashEx.tickerInterval = wsAfterCrashEx.pm.config.restartDelay ∧
    wsAfterCrashEx.phase = Phase.idle :=
  launch_success_resets ['l', 's'] cfgEx 0 wsIdleEx wsLaunchingEx wsRunningEx wsAfterCrashEx
    7 0 1 Event.exitError ⟨pmEx, rfl, rfl⟩
    (Reachable.tail (Reachable.refl _) Event.tick 0 rfl)
    rfl (Or.inr rfl) rfl

/-- C6 (code evaluation): on a process-group-capable (Unix-like) platform
the graceful-stop request issued during termination
(`terminateProcess` → `sendTerminationSignal`) sends SIGTERM to the single
process only — even when the process-group lookup would succeed it never
signals the group; the process-group signalling with single-process
fallback exists only in `sendPlatformTerminationSignal`
(`platform_unix.go`), which no code path invokes. -/
theorem graceful_stop_targets_single_pid :
    (terminateGracefulRequest GoOS.unixLike false true 42 false).1 = [SigAction.signalPid 42] ∧
    SigAction.signalGroup 42 ∉ (terminateGracefulRequest GoOS.unixLike false true 42 false).1 ∧
    (sendPlatformTerminationSignal (some 42) 42 false false).1 = [SigAction.signalGroup 42] := by
  decide

/-- C7: for every reachable worker-loop state, the process handle
`currentProc` is non-empty exactly while the loop sits between a
successful launch and the observed exit of that same pid (phase
`running pid`); and no launch can be scheduled (no tick is consumed)
unless the loop is idle, so two launches of one worker can never be in
flight at once. -/
theorem single_process_invariant (cmd : List Char) (cfg : Config) (t0 : Nat)
    (ws0 ws : WorkerState) (hinit : ValidInit cmd cfg t0 ws0)
    (hreach : Reachable ws0 ws) :
    (∀ pid, ws.pm.currentProc = some pid ↔ ws.phase = Phase.running pid) ∧
    (∀ now, ws.phase ≠ Phase.idle → step ws Event.tick now = none) := by
  have hInv := inv_reachable cfg hreach (inv_init cmd cfg t0 ws0 hinit)
  constructor
  · intro pid
    constructor
    · intro hcp
      cases hph : ws.phase with
      | running q =>
        have := hInv.1
        rw [hph] at this
        simp only at this
        rw [this] at hcp
        cases hcp
        rfl
      | idle =>
        have := hInv.1
        rw [hph] at this
        simp only at this
        rw [this] at hcp
        exact Option.noConfusion hcp
      | launching =>
        have := hInv.1
        rw [hph] at this
        simp only at this
        rw [this] at hcp
        exact Option.noConfusion hcp
      | done =>
        have := hInv.1
        rw [hph] at this
        simp only at this
        rw [this] at hcp
        exact Option.noConfusion hcp
    · intro hph
      have := hInv.1
      rw [hph] at this
      exact this
  · intro now hph
    cases h : ws.phase
    · exact absurd h hph
    · simp [step, h]
    · simp [step, h]
    · simp [step, h]

/-- Witness for C7 at the concrete reachable running state `wsRunningEx`. -/
theorem single_process_invariant_witness :
    (wsRunningEx.pm.currentProc = some 7 ↔ wsRunningEx.phase = Phase.running 7) ∧
    step wsRunningEx Event.tick 0 = none :=
  ⟨(single_process_invariant ['l', 's'] cfgEx 0 wsIdleEx wsRunningEx ⟨pmEx, rfl, rfl⟩
      (Reachable.tail (Reachable.tail (Reachable.refl _) Event.tick 0 rfl)
        (Event.launchOk 7) 0 rfl)).1 7,
   (single_process_invariant ['l', 's'] cfgEx 0 wsIdleEx wsRunningEx ⟨pmEx, rfl, rfl⟩
      (Reachable.tail (Reachable.tail (Reachable.refl _) Event.tick 0 rfl)
        (Event.launchOk 7) 0 rfl)).2 0 (by decide)⟩

theorem resetFailureState_eq_self (pm : ProcessManager) (h : pm.failureCount = 0) :
    resetFailureState pm = pm := by
  simp [resetFailureState, h]

theorem crashCycle_spec (ws : WorkerState) (pid now : Nat)
    (hph : ws.phase = Phase.idle) (hfc : ws.pm.failureCount = 0) :
    ∃ ws', crashCycle ws pid now = some ws' ∧ ws'.phase = Phase.idle ∧
      ws'.pm.failureCount = 0 ∧ ws'.pm.config = ws.pm.config ∧
      ws'.pm.backoffDuration = ws.pm.backoffDuration ∧
      ws'.tickerInterval = ws'.pm.config.restartDelay := by
  unfold crashCycle
  have h1 : step ws Event.tick now = some { ws with phase := Phase.launching } := by
    simp only [step, hph]
    rw [if_neg (by omega)]
  rw [h1]
  have hfc2 : (UpdateStats { (UpdateStats { ws.pm with currentProc := some pid }
        ProcessStatus.running pid now) with currentProc := none }
      ProcessStatus.failed 0 now).failureCount = 0 := by
    rw [UpdateStats_failureCount]
    show (UpdateStats { ws.pm with currentProc := some pid }
      ProcessStatus.running pid now).failureCount = 0
    rw [UpdateStats_failureCount]
    exact hfc
  refine ⟨_, rfl, rfl, ?_, ?_, ?_, rfl⟩
  · rw [resetFailureState_failureCount]
  · rw [resetFailureState_eq_self _ hfc2, UpdateStats_config]
    show (UpdateStats { ws.pm with currentProc := some pid }
      ProcessStatus.running pid now).config = ws.pm.config
    rw [UpdateStats_config]
  · rw [resetFailureState_eq_self _ hfc2, UpdateStats_backoffDuration]
    show (UpdateStats { ws.pm with currentProc := some pid }
      ProcessStatus.running pid now).backoffDuration = ws.pm.backoffDuration
    rw [UpdateStats_backoffDuration]

theorem crashCycles_spec (n : Nat) (ws : WorkerState) (pid now : Nat)
    (hph : ws.phase = Phase.idle) (hfc : ws.pm.failureCount = 0)
    (hti : ws.tickerInterval = ws.pm.config.restartDelay)
    (hbd : ws.pm.backoffDuration = ws.pm.config.restartDelay) :
    ∃ ws', crashCycles n ws pid now = some ws' ∧ ws'.phase = Phase.idle ∧
      ws'.pm.failureCount = 0 ∧ ws'.pm.config = ws.pm.config ∧
      ws'.tickerInterval = ws'.pm.config.restartDelay ∧
      ws'.pm.backoffDuration = ws'.pm.config.restartDelay := by
  induction n generalizing ws with
  | zero => exact ⟨ws, rfl, hph, hfc, rfl, by rw [hti], hbd⟩
  | succ n ih =>
    obtain ⟨w1, hw1, hw1ph, hw1fc, hw1cfg, hw1bd, hw1ti⟩ :=
      crashCycle_spec ws pid now hph hfc
    obtain ⟨ws', hws', hph', hfc', hcfg', hti', hbd'⟩ :=
      ih w1 hw1ph hw1fc hw1ti (by rw [hw1bd, hw1cfg]; exact hbd)
    refine ⟨ws', ?_, hph', hfc', ?_, hti', hbd'⟩
    · rw [crashCycles, hw1]
      exact hws'
    · rw [hcfg', hw1cfg]

/-- C9: `startProcess` returns an error if and only if the OS launch call
fails; a process that launches and later exits non-cleanly yields a nil
error.  Consequently an always-launching, always-crashing command never
trips the max-retries ceiling: after any number of
tick / launch-ok / crash cycles the worker is still scheduling (phase
`idle`, loop not exited), the launch-failure count is still 0 and both the
ticker and the backoff interval sit at the base restart delay — for every
configuration, including `maxRetries > 0`. -/
theorem launch_failure_only_errors :
    (∀ pm r now, ((startProcess pm r now).2).isSome = true ↔ r = LaunchResult.launchError) ∧
    (∀ ws pid now n, ws.phase = Phase.idle → ws.pm.failureCount = 0 →
      ws.tickerInterval = ws.pm.config.restartDelay →
      ws.pm.backoffDuration = ws.pm.config.restartDelay →
      ∃ ws', crashCycles n ws pid now = some ws' ∧ ws'.phase = Phase.idle ∧
        ws'.pm.failureCount = 0 ∧ ws'.pm.config = ws.pm.config ∧
        ws'.tickerInterval = ws'.pm.config.restartDelay ∧
        ws'.pm.backoffDuration = ws'.pm.config.restartDelay) := by
  constructor
  · intro pm r now
    cases r <;> simp [startProcess]
  · intro ws pid now n hph hfc hti hbd
    exact crashCycles_spec n ws pid now hph hfc hti hbd

/-- Witness for C9: a successful launch with a crash yields no error, and
two crash cycles under `max-retries=3` leave the worker scheduling at the
base delay. -/
theorem launch_failure_only_errors_witness :
    (((startProcess pmEx (LaunchResult.exited 7 false) 0).2).isSome = true ↔
      LaunchResult.exited 7 false = LaunchResult.launchError) ∧
    (∃ ws', crashCycles 2 (initState pmRetries) 7 0 = some ws' ∧ ws'.phase = Phase.idle ∧
      ws'.pm.failureCount = 0 ∧ ws'.pm.config = (initState pmRetries).pm.config ∧
      ws'.tickerInterval = ws'.pm.config.restartDelay ∧
      ws'.pm.backoffDuration = ws'.pm.config.restartDelay) :=
  ⟨launch_failure_only_errors.1 pmEx (LaunchResult.exited 7 false) 0,
   launch_failure_only_errors.2 (initState pmRetries) 7 0 2 rfl rfl rfl rfl⟩

/-- C10: entering `running` overwrites `stats.startTime` with the current
time and leaves the recomputed uptime at 0; `GetStats` returns a value
copy whose uptime is recomputed from `startTime` only while the status is
`running` (all other fields are returned unchanged); therefore the
reported uptime measures the current process run, and before the first
launch the stats hold the construction time with status `stopped`. -/
theorem uptime_semantics :
    (∀ pm pid now, (UpdateStats pm ProcessStatus.running pid now).stats.startTime = now ∧
        (UpdateStats pm ProcessStatus.running pid now).stats.uptime = 0) ∧
    (∀ pm now, (GetStats pm now).uptime =
        (if pm.stats.status = ProcessStatus.running then now - pm.stats.startTime
         else pm.stats.uptime) ∧
      (GetStats pm now).startTime = pm.stats.startTime ∧
      (GetStats pm now).status = pm.stats.status ∧
      (GetStats pm now).restartCount = pm.stats.restartCount ∧
      (GetStats pm now).failureCount = pm.stats.failureCount ∧
      (GetStats pm now).pid = pm.stats.pid) ∧
    (∀ pm pid t now, (GetStats (UpdateStats pm ProcessStatus.running pid t) now).uptime =
        now - t) ∧
    (∀ cmd cfg t0 pm, NewProcessManager cmd cfg t0 = Except.ok pm →
        pm.stats.startTime = t0 ∧ pm.stats.status = ProcessStatus.stopped) := by
  refine ⟨?_, ?_, ?_, ?_⟩
  · intro pm pid now
    constructor <;> simp [UpdateStats]
  · intro pm now
    unfold GetStats
    split <;> simp_all
  · intro pm pid t now
    unfold GetStats
    rw [if_pos (UpdateStats_status pm ProcessStatus.running pid t)]
    have h1 : (UpdateStats pm ProcessStatus.running pid t).stats.startTime = t := by
      simp [UpdateStats]
    simp [h1]
  · intro cmd cfg t0 pm h
    unfold NewProcessManager at h
    split at h
    · exact Except.noConfusion h
    · cases h
      exact ⟨rfl, rfl⟩

/-- Witness for C10 at concrete times: launch at t=5 observed at t=9, and
the freshly constructed `pmEx`. -/
theorem uptime_semantics_witness :
    ((UpdateStats pmEx ProcessStatus.running 7 5).stats.startTime = 5 ∧
      (UpdateStats pmEx ProcessStatus.running 7 5).stats.uptime = 0) ∧
    (GetStats (UpdateStats pmEx ProcessStatus.running 7 5) 9).uptime = 9 - 5 ∧
    (pmEx.stats.startTime = 0 ∧ pmEx.stats.status = ProcessStatus.stopped) :=
  ⟨uptime_semantics.1 pmEx 7 5,
   uptime_semantics.2.2.1 pmEx 7 5 9,
   uptime_semantics.2.2.2 ['l', 's'] cfgEx 0 pmEx rfl⟩

end LarsScriptRunner
